import Mathlib

/-!
Verification of the BlackRoad Dev Journal persistence/query core
(`dev_journal.py`) against its specification.

Embedding conventions:
* Calendar dates are modelled as epoch-day naturals (days since
  1970-01-01).  The ISO-8601 date strings stored in the `date` column
  compare lexicographically exactly as their epoch-day numbers compare
  numerically, so the SQL comparisons `date>=?` / `date BETWEEN ? AND ?`
  become numeric comparisons, and `datetime.date` arithmetic becomes
  arithmetic on epoch days.  1970-01-01 was a Thursday, so Python's
  `date.weekday()` (Monday = 0) is `(d + 3) % 7` on epoch day `d`.
* SQLite `REAL` (`focus_hours`) is modelled as `Rat`; the claims under
  verification concern which rows are aggregated, not float rounding.
* `TEXT` columns are Lean `String`s; the serialized list columns hold the
  output of the `json.dumps` model below, and `json.loads` is modelled as
  an `Option`-valued parser (Python raises on malformed input).
* Fallible operations return `Option`/`Except`; commands that let an
  exception escape (no `try`/`except` in the source) are modelled with an
  explicit `uncaught`/`error` outcome.
-/

/-! ### JSON serialization of lists of strings

Models CPython's `json.dumps` (default options: `ensure_ascii=True`,
separator `", "`) restricted to lists of strings, and `json.loads`
restricted to the JSON-array-of-strings grammar that this program ever
stores.  Characters outside printable ASCII are written as `\uXXXX`
escapes, with surrogate pairs for code points above `0xFFFF`, exactly as
CPython's `py_encode_basestring_ascii` does. -/

/-- The lowercase hex digit for `k < 16` (as `"%04x" % n` prints). -/
def hexDig (k : Nat) : Char :=
  if k < 10 then Char.ofNat (48 + k) else Char.ofNat (87 + k)

def hex4 (n : Nat) : List Char :=
  [hexDig (n / 4096 % 16), hexDig (n / 256 % 16),
   hexDig (n / 16 % 16), hexDig (n % 16)]

/-- One character of `json.dumps` output (the `ESCAPE_DCT` shortcuts,
printable ASCII verbatim, `\uXXXX` otherwise, surrogate pairs for
astral code points). -/
def escCharL (c : Char) : List Char :=
  if c = '\\' then ['\\', '\\']
  else if c = '"' then ['\\', '"']
  else if c.toNat = 8 then ['\\', 'b']
  else if c.toNat = 9 then ['\\', 't']
  else if c.toNat = 10 then ['\\', 'n']
  else if c.toNat = 12 then ['\\', 'f']
  else if c.toNat = 13 then ['\\', 'r']
  else if 32 ≤ c.toNat ∧ c.toNat ≤ 126 then [c]
  else if c.toNat < 65536 then '\\' :: 'u' :: hex4 c.toNat
  else
    ('\\' :: 'u' :: hex4 (55296 + (c.toNat - 65536) / 1024)) ++
    ('\\' :: 'u' :: hex4 (56320 + (c.toNat - 65536) % 1024))

/-- A JSON string literal: `"` body `"`. -/
def encodeStrL (s : List Char) : List Char :=
  '"' :: (s.map escCharL).flatten ++ ['"']

/-- The comma-space separated concatenation `", ".join(...)` used by
`json.dumps` for array elements. -/
def sepConcat : List (List Char) → List Char
  | [] => []
  | [s] => s
  | s :: rest => s ++ ',' :: ' ' :: sepConcat rest

/-- `json.dumps` of a list of strings, as a character list. -/
def dumpsListL (ls : List (List Char)) : List Char :=
  '[' :: sepConcat (ls.map encodeStrL) ++ [']']

def hexVal (c : Char) : Option Nat :=
  if 48 ≤ c.toNat ∧ c.toNat ≤ 57 then some (c.toNat - 48)
  else if 97 ≤ c.toNat ∧ c.toNat ≤ 102 then some (c.toNat - 87)
  else if 65 ≤ c.toNat ∧ c.toNat ≤ 70 then some (c.toNat - 55)
  else none

def hex4Val (a b c d : Char) : Option Nat :=
  match hexVal a, hexVal b, hexVal c, hexVal d with
  | some h1, some h2, some h3, some h4 => some (4096 * h1 + 256 * h2 + 16 * h3 + h4)
  | _, _, _, _ => none

/-- Continuation after a high surrogate `\uXXXX` (value `n`): expects a
second `\uXXXX` escape holding a low surrogate and combines the pair. -/
def parseLowSur (n : Nat) : List Char → Option (Char × List Char)
  | u1 :: u2 :: a2 :: b2 :: c2 :: d2 :: rest2 =>
    if u1 = '\\' ∧ u2 = 'u' then
      (hex4Val a2 b2 c2 d2).bind (fun m =>
        if 56320 ≤ m ∧ m ≤ 57343 then
          some (Char.ofNat (65536 + (n - 55296) * 1024 + (m - 56320)), rest2)
        else none)
    else none
  | _ => none

/-- Decoding of a `\uXXXX` escape (input starts at the first hex digit):
a lone BMP code point, or a surrogate pair for an astral code point.
Lone surrogates are rejected (`dumps` never writes them). -/
def parseUEsc : List Char → Option (Char × List Char)
  | a :: b :: c :: d :: rest =>
    (hex4Val a b c d).bind (fun n =>
      if n < 55296 ∨ 57343 < n then some (Char.ofNat n, rest)
      else if n ≤ 56319 then parseLowSur n rest
      else none)
  | _ => none

/-- Decoding of one backslash escape (input starts right after the
backslash): the two-character shortcuts, `\/`, or a `\uXXXX` escape. -/
def unescape1 : List Char → Option (Char × List Char)
  | [] => none
  | e :: rest =>
    if e = 'b' then some (Char.ofNat 8, rest)
    else if e = 't' then some (Char.ofNat 9, rest)
    else if e = 'n' then some (Char.ofNat 10, rest)
    else if e = 'f' then some (Char.ofNat 12, rest)
    else if e = 'r' then some (Char.ofNat 13, rest)
    else if e = '"' then some ('"', rest)
    else if e = '\\' then some ('\\', rest)
    else if e = '/' then some ('/', rest)
    else if e = 'u' then parseUEsc rest
    else none

/-- `json.loads` string scanning (`py_scanstring`): the input is the text
after the opening quote; returns the decoded content and the rest after
the closing quote.  Bare control characters are errors (strict mode).
The `fuel` argument only bounds the recursion depth; one unit is spent
per decoded character, so `input length + 1` always suffices. -/
def parseStrL : Nat → List Char → Option (List Char × List Char)
  | 0, _ => none
  | fuel + 1, cs =>
    match cs with
    | [] => none
    | c :: rest =>
      if c = '"' then some ([], rest)
      else if c = '\\' then
        (unescape1 rest).bind (fun q =>
          (parseStrL fuel q.2).map (fun p => (q.1 :: p.1, p.2)))
      else if c.toNat < 32 then none
      else (parseStrL fuel rest).map (fun p => (c :: p.1, p.2))

def isWsChar (c : Char) : Bool :=
  c == ' ' || c == '\t' || c == '\n' || c == '\r'

def skipWs (cs : List Char) : List Char := cs.dropWhile isWsChar

/-- Fuel-indexed parser for the elements of a JSON array of strings,
positioned after the opening bracket (nonempty-array case); consumes the
closing bracket.  One unit of fuel is spent per element. -/
def parseElems : Nat → List Char → Option (List (List Char) × List Char)
  | 0, _ => none
  | fuel + 1, cs =>
    match skipWs cs with
    | [] => none
    | c :: rest =>
      if c = '"' then
        (parseStrL (rest.length + 1) rest).bind (fun q =>
          match skipWs q.2 with
          | [] => none
          | c2 :: rest3 =>
            if c2 = ',' then (parseElems fuel rest3).map (fun p => (q.1 :: p.1, p.2))
            else if c2 = ']' then some ([q.1], rest3)
            else none)
      else none

/-- `json.loads` restricted to arrays of strings (the only shape this
program ever stores): surrounding whitespace allowed, anything else an
error (`Option.none` models the raised `JSONDecodeError`). -/
def loadsListL (cs : List Char) : Option (List (List Char)) :=
  match skipWs cs with
  | [] => none
  | c :: rest =>
    if c = '[' then
      match skipWs rest with
      | [] => none
      | c2 :: rest2 =>
        if c2 = ']' then (if skipWs rest2 = [] then some [] else none)
        else
          (parseElems cs.length rest).bind (fun p =>
            if skipWs p.2 = [] then some p.1 else none)
    else none

/-- `json.dumps` of a Python list of strings. -/
def jsonDumpsList (l : List String) : String :=
  String.mk (dumpsListL (l.map String.data))

/-- `json.loads`, expected to produce a list of strings. -/
def jsonLoadsList (s : String) : Option (List String) :=
  (loadsListL s.data).map (fun ls => ls.map String.mk)

/-! ### Data model and store

The `entries` table row (serialized list columns hold `json.dumps`
output), the FTS index document `(rowid, title, body, tags_json)`, and
the store: table rows in insertion order, index documents, and the
`AUTOINCREMENT` counter (next id to assign, starting at 1). -/

def MOODS : List String := ["great", "good", "ok", "rough"]

structure Row where
  id : Nat
  date : Nat
  title : String
  body : String
  tags_json : String
  mood : String
  focus_hours : Rat
  accomplishments : String
  blockers : String
  tomorrow : String
  created_at : Nat
deriving DecidableEq

structure FtsDoc where
  rowid : Nat
  title : String
  body : String
  tags_json : String
deriving DecidableEq

structure Store where
  rows : List Row
  fts : List FtsDoc
  seq : Nat
deriving DecidableEq

/-- The on-disk database file: each schema object of the
`executescript` (entries table with its autoincrement counter, the FTS
table, the three triggers) either exists or not. -/
structure DbFile where
  entriesTab : Option (List Row × Nat)
  ftsTab : Option (List FtsDoc)
  trigAi : Bool
  trigAd : Bool
  trigAu : Bool
deriving DecidableEq

/-- `get_db`: runs the `CREATE ... IF NOT EXISTS` script — creates each
missing schema object empty and leaves existing ones untouched. -/
def get_db (f : DbFile) : DbFile :=
  { entriesTab := some (f.entriesTab.getD ([], 1)),
    ftsTab := some (f.ftsTab.getD []),
    trigAi := true, trigAd := true, trigAu := true }

/-- A database file that does not exist yet. -/
def dbAbsent : DbFile := ⟨none, none, false, false, false⟩

/-- The store contents seen through a connection (absent schema objects
read as empty). -/
def storeOf (f : DbFile) : Store :=
  ⟨(f.entriesTab.getD ([], 1)).1, f.ftsTab.getD [], (f.entriesTab.getD ([], 1)).2⟩

def initialStore : Store := storeOf (get_db dbAbsent)

/-- The document the `entries_ai` trigger writes for a row. -/
def rowDoc (r : Row) : FtsDoc := ⟨r.id, r.title, r.body, r.tags_json⟩

/-- `insert_entry`: one `INSERT` statement.  The `entries_ai` trigger
fires within the same statement, so the row and its index document are
appended together (atomic unit of work); returns `cur.lastrowid`. -/
def insert_entry (s : Store) (date_str : Nat) (title body : String)
    (tags : List String) (mood : String) (focus_hours : Rat)
    (accomplishments blockers tomorrow : List String) (now : Nat) : Nat × Store :=
  let r : Row := ⟨s.seq, date_str, title, body, jsonDumpsList tags, mood, focus_hours,
    jsonDumpsList accomplishments, jsonDumpsList blockers, jsonDumpsList tomorrow, now⟩
  (s.seq, ⟨s.rows ++ [r], s.fts ++ [rowDoc r], s.seq + 1⟩)

structure JournalEntry where
  id : Nat
  date : Nat
  title : String
  body : String
  tags : List String
  mood : String
  focus_hours : Rat
  accomplishments : List String
  blockers : List String
  tomorrow : List String
  created_at : Nat
deriving DecidableEq

/-- `row_to_entry`: deserializes the list columns with `json.loads`
(which raises, i.e. `none`, on malformed stored text). -/
def row_to_entry (r : Row) : Option JournalEntry :=
  match jsonLoadsList r.tags_json, jsonLoadsList r.accomplishments,
      jsonLoadsList r.blockers, jsonLoadsList r.tomorrow with
  | some tg, some ac, some bl, some tm =>
    some ⟨r.id, r.date, r.title, r.body, tg, r.mood, r.focus_hours, ac, bl, tm,
      r.created_at⟩
  | _, _, _, _ => none

/-- `SELECT * FROM entries WHERE id=?` followed by `fetchone`. -/
def getById (s : Store) (i : Nat) : Option Row := s.rows.find? (fun r => r.id == i)

/-! ### Sorting relations used by the SQL `ORDER BY` clauses -/

def dateLe (a b : Row) : Prop := a.date ≤ b.date

instance : DecidableRel dateLe := fun a b => Nat.decLe a.date b.date

instance : IsTotal Row dateLe := ⟨fun a b => Nat.le_total a.date b.date⟩

instance : IsTrans Row dateLe := ⟨fun _ _ _ => Nat.le_trans⟩

def dateGe (a b : Row) : Prop := b.date ≤ a.date

instance : DecidableRel dateGe := fun a b => Nat.decLe b.date a.date

instance : IsTotal Row dateGe := ⟨fun a b => Nat.le_total b.date a.date⟩

instance : IsTrans Row dateGe := ⟨fun _ _ _ h1 h2 => Nat.le_trans h2 h1⟩

def natGe (a b : Nat) : Prop := b ≤ a

instance : DecidableRel natGe := fun a b => Nat.decLe b a

instance : IsTotal Nat natGe := ⟨fun a b => Nat.le_total b a⟩

instance : IsTrans Nat natGe := ⟨fun _ _ _ h1 h2 => Nat.le_trans h2 h1⟩

/-! ### Commands -/

/-- Python `str.strip` whitespace set (ASCII part). -/
def isPyWs (c : Char) : Bool :=
  c.toNat = 32 || c.toNat = 9 || c.toNat = 10 || c.toNat = 13 ||
  c.toNat = 11 || c.toNat = 12

def pyStrip (s : String) : String :=
  String.mk (((s.data.dropWhile isPyWs).reverse.dropWhile isPyWs).reverse)

/-- Python `str.lstrip("#")`: removes all leading `#` characters. -/
def lstripHash (s : String) : String :=
  String.mk (s.data.dropWhile (fun c => c == '#'))

/-- Python `str.split(sep)` for a one-character separator (empty parts
preserved). -/
def splitOnChar (sep : Char) : List Char → List (List Char)
  | [] => [[]]
  | c :: rest =>
    match splitOnChar sep rest with
    | [] => [[c]]
    | p :: ps => if c = sep then [] :: p :: ps else (c :: p) :: ps

def pySplit (s : String) (sep : Char) : List String :=
  (splitOnChar sep s.data).map String.mk

structure AddArgs where
  title : String
  body : String
  tags : String
  mood : String
  hours : Rat
  accomplishments : String
  blockers : String
  tomorrow : String
deriving DecidableEq

inductive AddOutcome
  | added (eid : Nat)
  | validationError
deriving DecidableEq

/-- `cmd_add`: splits the raw argument strings, checks the mood against
the `MOODS` enumeration (reporting an error and exiting, without
inserting, when it is outside the set), then inserts. -/
def cmd_add (s : Store) (today now : Nat) (a : AddArgs) : Store × AddOutcome :=
  let tags := if a.tags = "" then []
    else (pySplit a.tags ',').map (fun t => lstripHash (pyStrip t))
  let accoms := if a.accomplishments = "" then []
    else (pySplit a.accomplishments '|').map pyStrip
  let blockers := if a.blockers = "" then []
    else (pySplit a.blockers '|').map pyStrip
  let tmrw := if a.tomorrow = "" then []
    else (pySplit a.tomorrow '|').map pyStrip
  if a.mood ∈ MOODS then
    let p := insert_entry s today a.title a.body tags a.mood a.hours
      accoms blockers tmrw now
    (p.2, AddOutcome.added p.1)
  else (s, AddOutcome.validationError)

/-- Minimal model of the external FTS5 query parser's syntax check: an
empty query or a bare boolean operator is a syntax error
(`sqlite3.OperationalError`). -/
def fts5QueryOk (q : String) : Bool :=
  !(q = "" || q = "AND" || q = "OR" || q = "NOT")

/-- Model of FTS5 term matching for a simple one-term query: the term
occurs as a token of one of the indexed columns. -/
def ftsTokens (s : String) : List String := (splitOnChar ' ' s.data).map String.mk

def matchDoc (q : String) (d : FtsDoc) : Bool :=
  (ftsTokens d.title).contains q || (ftsTokens d.body).contains q ||
  (ftsTokens d.tags_json).contains q

inductive SearchOutcome
  | reported (results : List Row)
  | uncaught (err : String)
deriving DecidableEq

/-- The rows produced by the search query: join on `e.id = f.rowid`,
`MATCH`, `ORDER BY e.date DESC LIMIT 20`. -/
def searchRows (s : Store) (q : String) : List Row :=
  (List.insertionSort dateGe (s.rows.filter (fun r =>
    s.fts.any (fun d2 => d2.rowid == r.id && matchDoc q d2)))).take 20

/-- `cmd_search` has no `try`/`except`: a query the index rejects makes
the `sqlite3.OperationalError` escape as an uncaught exception. -/
def cmd_search (s : Store) (q : String) : SearchOutcome :=
  if fts5QueryOk q then SearchOutcome.reported (searchRows s q)
  else SearchOutcome.uncaught ("fts5: syntax error in query: " ++ q)

/-- The loop of `cmd_streak` on the dates after the most recent one:
starts at `streak = 1` and adds one per leading gap of exactly one day,
stopping at the first other gap. -/
def streakAux (prev : Nat) : List Nat → Nat
  | [] => 1
  | d :: rest => if prev - d = 1 then streakAux d rest + 1 else 1

/-- The streak of a `SELECT DISTINCT date ... ORDER BY date DESC` list
(nonempty input; the command guards the empty case). -/
def streakOf : List Nat → Nat
  | [] => 1
  | d :: rest => streakAux d rest

/-- `SELECT DISTINCT date FROM entries ORDER BY date DESC`. -/
def distinctDatesDesc (s : Store) : List Nat :=
  List.insertionSort natGe
    ((s.rows.map (fun r => r.date)).foldl
      (fun acc d => if acc.contains d then acc else acc ++ [d]) [])

inductive StreakOutcome
  | noEntries
  | streak (days : Nat) (totalDays : Nat)
deriving DecidableEq

def cmd_streak (s : Store) : StreakOutcome :=
  match distinctDatesDesc s with
  | [] => StreakOutcome.noEntries
  | d :: rest => StreakOutcome.streak (streakAux d rest) (d :: rest).length

/-- First-appearance deduplication (the distinct groups a `GROUP BY`
produces, one per distinct mood value). -/
def distinctList (l : List String) : List String :=
  l.foldl (fun acc m => if acc.contains m then acc else acc ++ [m]) []

/-- `SELECT mood, COUNT(*) ... WHERE date>=? GROUP BY mood` on the given
rows. -/
def moodCounts (rows : List Row) : List (String × Nat) :=
  (distinctList (rows.map (fun r => r.mood))).map
    (fun m => (m, (rows.filter (fun r => r.mood == m)).length))

/-- Python `MOODS.index(m)`: raises `ValueError` (here `none`) when the
value is not in the tuple. -/
def moodsIndex (m : String) : Option Nat := MOODS.findIdx? (fun x => x == m)

inductive TrendOutcome
  | noData
  | table (entries : List (String × Nat))
deriving DecidableEq

/-- `cmd_mood_trend`: `days = args.days or 30`, a trailing window
`date >= today - days`, grouping by mood, then
`sorted(rows, key=lambda r: MOODS.index(r["mood"]))` — `sorted`
evaluates the key on every group, so any grouped mood outside `MOODS`
raises an uncaught `ValueError`. -/
def cmd_mood_trend (today argDays : Nat) (s : Store) : Except String TrendOutcome :=
  let days := if argDays = 0 then 30 else argDays
  let since := today - days
  let grp := moodCounts (s.rows.filter (fun r => decide (since ≤ r.date)))
  if grp.isEmpty then Except.ok TrendOutcome.noData
  else
    match grp.mapM (fun p => (moodsIndex p.1).map (fun i => (i, p))) with
    | none => Except.error "ValueError: tuple.index(x): x not in tuple"
    | some keyed =>
      Except.ok (TrendOutcome.table ((List.insertionSort
        (fun x y : Nat × (String × Nat) => x.1 ≤ y.1) keyed).map (fun x => x.2)))

structure WeeklySummary where
  count : Nat
  totalHours : Rat
  accomplishments : List String
deriving DecidableEq

/-- Python `date.weekday()` (Monday = 0) on an epoch day:
1970-01-01 was a Thursday. -/
def pyWeekday (d : Nat) : Nat := (d + 3) % 7

/-- `cmd_weekly`: `start = today - timedelta(days=today.weekday())`,
`SELECT * FROM entries WHERE date>=? ORDER BY date` (no upper bound),
summing `focus_hours` and flattening the decoded `accomplishments`
lists in the returned row order. -/
def cmd_weekly (today : Nat) (s : Store) : Option WeeklySummary :=
  let start := today - pyWeekday today
  let rows := List.insertionSort dateLe
    (s.rows.filter (fun r => decide (start ≤ r.date)))
  match rows.mapM (fun r => jsonLoadsList r.accomplishments) with
  | none => none
  | some accLists =>
    some ⟨rows.length, (rows.map (fun r => r.focus_hours)).sum, accLists.flatten⟩

/-- Epoch day of 2020-01-01, the hard-coded default export start date. -/
def exportDefaultStart : Nat := 18262

/-- The rows `cmd_export_md` renders: `start = args.start or
"2020-01-01"`, `end = args.end or date.today()`,
`WHERE date BETWEEN ? AND ? ORDER BY date`. -/
def cmd_export_md (argStart argEnd : Option Nat) (today : Nat) (s : Store) :
    List Row :=
  let start := argStart.getD exportDefaultStart
  let endD := argEnd.getD today
  List.insertionSort dateLe (s.rows.filter (fun r =>
    decide (start ≤ r.date) && decide (r.date ≤ endD)))

/-- Store states reachable through this module: a fresh database
followed by any sequence of inserts (the only write operation). -/
inductive Reachable : Store → Prop
  | init : Reachable initialStore
  | insert (s : Store) (d : Nat) (title body : String) (tags : List String)
      (mood : String) (fh : Rat) (ac bl tm : List String) (now : Nat) :
      Reachable s →
      Reachable (insert_entry s d title body tags mood fh ac bl tm now).2

/-! ### Demonstration stores (used by witnesses) -/

def demoStore1 : Store :=
  (insert_entry initialStore 18267 "standup" "notes" ["python"] "ok" 2
    ["shipped"] [] [] 0).2

def demoStore2 : Store :=
  (insert_entry demoStore1 18270 "retro" "" ["api"] "good" 3 ["tested"] [] [] 1).2

def futureStore : Store :=
  (insert_entry initialStore 18268 "t" "" [] "ok" 1 [] [] [] 0).2

def oldStore : Store :=
  (insert_entry initialStore 18000 "old" "" [] "ok" 0 [] [] [] 0).2

def oldRow : Row := ⟨1, 18000, "old", "", "[]", "ok", 0, "[]", "[]", "[]", 0⟩

def demoFile : DbFile :=
  ⟨some ([⟨1, 18267, "t", "b", "[]", "ok", 2, "[]", "[]", "[]", 0⟩], 2),
   some [⟨1, "t", "b", "[]"⟩], true, true, true⟩

/-! ### Spec-side definitions for the streak claim -/

/-- Following the spec's words: the first `m` positions form a run of
consecutive calendar days, each exactly one day before the previous. -/
def consecFrom (l : List Nat) (m : Nat) : Prop :=
  ∀ i < m - 1, l.getD i 0 = l.getD (i + 1) 0 + 1

instance (l : List Nat) (m : Nat) : Decidable (consecFrom l m) :=
  inferInstanceAs (Decidable (∀ i < m - 1, l.getD i 0 = l.getD (i + 1) 0 + 1))

/-- Following the spec's words: the length of the maximal prefix of
consecutive calendar days starting from the most recent date. -/
def specStreakLen (l : List Nat) : Nat :=
  Nat.findGreatest (fun m => m ≤ l.length ∧ consecFrom l m) l.length

/-! ### Round-trip of the JSON serialization -/

theorem hexVal_hexDig (k : Nat) (h : k < 16) : hexVal (hexDig k) = some k := by
  interval_cases k <;> decide

theorem char_valid_nat (c : Char) :
    c.toNat < 55296 ∨ (57343 < c.toNat ∧ c.toNat < 1114112) := c.valid

theorem hex4Val_encode (n : Nat) (h : n < 65536) :
    hex4Val (hexDig (n / 4096 % 16)) (hexDig (n / 256 % 16))
      (hexDig (n / 16 % 16)) (hexDig (n % 16)) = some n := by
  unfold hex4Val
  rw [hexVal_hexDig _ (by omega), hexVal_hexDig _ (by omega),
    hexVal_hexDig _ (by omega), hexVal_hexDig _ (by omega)]
  exact congrArg some (by omega)

theorem parseUEsc_bmp (n : Nat) (hn : n < 65536) (hv : n < 55296 ∨ 57343 < n)
    (rest : List Char) : parseUEsc (hex4 n ++ rest) = some (Char.ofNat n, rest) := by
  rw [show hex4 n ++ rest = hexDig (n / 4096 % 16) :: hexDig (n / 256 % 16) ::
    hexDig (n / 16 % 16) :: hexDig (n % 16) :: rest from rfl]
  rw [parseUEsc.eq_1, hex4Val_encode n hn, Option.some_bind]
  rw [if_pos hv]

theorem parseLowSur_encode (n : Nat) (v : Nat) (hv : v < 1048576)
    (rest : List Char) :
    parseLowSur n ('\\' :: 'u' :: hex4 (56320 + v % 1024) ++ rest) =
      some (Char.ofNat (65536 + (n - 55296) * 1024 + v % 1024), rest) := by
  rw [show ('\\' : Char) :: 'u' :: hex4 (56320 + v % 1024) ++ rest =
      '\\' :: 'u' :: hexDig ((56320 + v % 1024) / 4096 % 16) ::
      hexDig ((56320 + v % 1024) / 256 % 16) ::
      hexDig ((56320 + v % 1024) / 16 % 16) ::
      hexDig ((56320 + v % 1024) % 16) :: rest from rfl]
  rw [parseLowSur.eq_1]
  rw [if_pos (⟨rfl, rfl⟩ : ('\\' : Char) = '\\' ∧ ('u' : Char) = 'u')]
  rw [hex4Val_encode _ (by omega : 56320 + v % 1024 < 65536), Option.some_bind]
  rw [if_pos (by omega : 56320 ≤ 56320 + v % 1024 ∧ 56320 + v % 1024 ≤ 57343)]
  exact congrArg (fun k => some (Char.ofNat (65536 + (n - 55296) * 1024 + k), rest))
    (by omega)

theorem parseUEsc_astral (n : Nat) (h1 : 65536 ≤ n) (h2 : n < 1114112)
    (rest : List Char) :
    parseUEsc (hex4 (55296 + (n - 65536) / 1024) ++
      ('\\' :: 'u' :: hex4 (56320 + (n - 65536) % 1024)) ++ rest) =
      some (Char.ofNat n, rest) := by
  rw [show hex4 (55296 + (n - 65536) / 1024) ++
      ('\\' :: 'u' :: hex4 (56320 + (n - 65536) % 1024)) ++ rest =
      hexDig ((55296 + (n - 65536) / 1024) / 4096 % 16) ::
      hexDig ((55296 + (n - 65536) / 1024) / 256 % 16) ::
      hexDig ((55296 + (n - 65536) / 1024) / 16 % 16) ::
      hexDig ((55296 + (n - 65536) / 1024) % 16) ::
      ('\\' :: 'u' :: hex4 (56320 + (n - 65536) % 1024) ++ rest) from by
        simp [hex4, List.append_assoc]]
  rw [parseUEsc.eq_1,
    hex4Val_encode _ (by omega : 55296 + (n - 65536) / 1024 < 65536), Option.some_bind]
  rw [if_neg (by omega : ¬(55296 + (n - 65536) / 1024 < 55296 ∨
    57343 < 55296 + (n - 65536) / 1024))]
  rw [if_pos (by omega : 55296 + (n - 65536) / 1024 ≤ 56319)]
  rw [parseLowSur_encode _ (n - 65536) (by omega)]
  exact congrArg (fun k => some (Char.ofNat k, rest)) (by omega)

/-- Shape analysis of `escCharL`: either the character is passed through
verbatim (printable ASCII, not quote or backslash), or an escape sequence
is emitted that `unescape1` decodes back to the character. -/
theorem esc_shape (c : Char) :
    (escCharL c = [c] ∧ ¬c = '"' ∧ ¬c = '\\' ∧ ¬c.toNat < 32) ∨
    (∃ t, escCharL c = '\\' :: t ∧
      ∀ rest, unescape1 (t ++ rest) = some (c, rest)) := by
  have hval := char_valid_nat c
  by_cases h1 : c = '\\'
  · exact Or.inr ⟨['\\'], by rw [h1]; decide, fun rest => by rw [h1]; rfl⟩
  by_cases h2 : c = '"'
  · exact Or.inr ⟨['"'], by rw [h2]; decide, fun rest => by rw [h2]; rfl⟩
  by_cases h3 : c.toNat = 8
  · have hc : c = Char.ofNat 8 := by rw [← h3, Char.ofNat_toNat]
    exact Or.inr ⟨['b'], by rw [hc]; decide, fun rest => by rw [hc]; rfl⟩
  by_cases h4 : c.toNat = 9
  · have hc : c = Char.ofNat 9 := by rw [← h4, Char.ofNat_toNat]
    exact Or.inr ⟨['t'], by rw [hc]; decide, fun rest => by rw [hc]; rfl⟩
  by_cases h5 : c.toNat = 10
  · have hc : c = Char.ofNat 10 := by rw [← h5, Char.ofNat_toNat]
    exact Or.inr ⟨['n'], by rw [hc]; decide, fun rest => by rw [hc]; rfl⟩
  by_cases h6 : c.toNat = 12
  · have hc : c = Char.ofNat 12 := by rw [← h6, Char.ofNat_toNat]
    exact Or.inr ⟨['f'], by rw [hc]; decide, fun rest => by rw [hc]; rfl⟩
  by_cases h7 : c.toNat = 13
  · have hc : c = Char.ofNat 13 := by rw [← h7, Char.ofNat_toNat]
    exact Or.inr ⟨['r'], by rw [hc]; decide, fun rest => by rw [hc]; rfl⟩
  by_cases h8 : 32 ≤ c.toNat ∧ c.toNat ≤ 126
  · refine Or.inl ⟨?_, h2, h1, by omega⟩
    simp only [escCharL, if_neg h1, if_neg h2, if_neg h3, if_neg h4, if_neg h5,
      if_neg h6, if_neg h7, if_pos h8]
  by_cases h9 : c.toNat < 65536
  · refine Or.inr ⟨'u' :: hex4 c.toNat, ?_, ?_⟩
    · simp only [escCharL, if_neg h1, if_neg h2, if_neg h3, if_neg h4, if_neg h5,
        if_neg h6, if_neg h7, if_neg h8, if_pos h9]
    · intro rest
      rw [show ('u' :: hex4 c.toNat) ++ rest = 'u' :: (hex4 c.toNat ++ rest) from rfl]
      rw [show unescape1 ('u' :: (hex4 c.toNat ++ rest)) =
        parseUEsc (hex4 c.toNat ++ rest) from rfl]
      rw [parseUEsc_bmp c.toNat h9 (by omega), Char.ofNat_toNat]
  · refine Or.inr ⟨'u' :: (hex4 (55296 + (c.toNat - 65536) / 1024) ++
      '\\' :: 'u' :: hex4 (56320 + (c.toNat - 65536) % 1024)), ?_, ?_⟩
    · simp only [escCharL, if_neg h1, if_neg h2, if_neg h3, if_neg h4, if_neg h5,
        if_neg h6, if_neg h7, if_neg h8, if_neg h9, List.cons_append,
        List.append_assoc]
    · intro rest
      rw [show ('u' :: (hex4 (55296 + (c.toNat - 65536) / 1024) ++
        '\\' :: 'u' :: hex4 (56320 + (c.toNat - 65536) % 1024))) ++ rest =
        'u' :: (hex4 (55296 + (c.toNat - 65536) / 1024) ++
        '\\' :: 'u' :: hex4 (56320 + (c.toNat - 65536) % 1024) ++ rest) from by
          simp [List.append_assoc]]
      rw [show ∀ X, unescape1 ('u' :: X) = parseUEsc X from fun X => rfl]
      rw [parseUEsc_astral c.toNat (by omega) (by omega), Char.ofNat_toNat]

theorem parseStrL_cons_lit (fuel : Nat) (c : Char) (rest : List Char)
    (h1 : ¬c = '"') (h2 : ¬c = '\\') (h3 : ¬c.toNat < 32) :
    parseStrL (fuel + 1) (c :: rest) =
      (parseStrL fuel rest).map (fun p => (c :: p.1, p.2)) := by
  show (if c = '"' then some ([], rest)
      else if c = '\\' then
        (unescape1 rest).bind (fun q =>
          (parseStrL fuel q.2).map (fun p => (q.1 :: p.1, p.2)))
      else if c.toNat < 32 then none
      else (parseStrL fuel rest).map (fun p => (c :: p.1, p.2))) =
      (parseStrL fuel rest).map (fun p => (c :: p.1, p.2))
  rw [if_neg h1, if_neg h2, if_neg h3]

theorem parseStrL_esc (fuel : Nat) (c : Char) (rest : List Char) :
    parseStrL (fuel + 1) (escCharL c ++ rest) =
      (parseStrL fuel rest).map (fun p => (c :: p.1, p.2)) := by
  rcases esc_shape c with ⟨he, hq, hb, hc⟩ | ⟨t, ht, hu⟩
  · rw [he, List.singleton_append]
    exact parseStrL_cons_lit fuel c rest hq hb hc
  · rw [ht, List.cons_append]
    rw [show parseStrL (fuel + 1) ('\\' :: (t ++ rest)) =
      (unescape1 (t ++ rest)).bind (fun q =>
        (parseStrL fuel q.2).map (fun p => (q.1 :: p.1, p.2))) from rfl]
    rw [hu rest, Option.some_bind]

theorem parseStrL_encode (s : List Char) : ∀ (fuel : Nat), s.length + 1 ≤ fuel →
    ∀ (rest : List Char),
    parseStrL fuel ((s.map escCharL).flatten ++ '"' :: rest) = some (s, rest) := by
  induction s with
  | nil =>
    intro fuel hf rest
    obtain ⟨f, rfl⟩ : ∃ f, fuel = f + 1 := ⟨fuel - 1, by omega⟩
    rfl
  | cons c cs ih =>
    intro fuel hf rest
    obtain ⟨f, rfl⟩ : ∃ f, fuel = f + 1 := ⟨fuel - 1, by omega⟩
    rw [List.map_cons, List.flatten_cons, List.append_assoc]
    rw [parseStrL_esc f c ((cs.map escCharL).flatten ++ '"' :: rest)]
    rw [ih f (by simp at hf; omega) rest]
    rfl

theorem length_le_flatten_esc (s : List Char) :
    s.length ≤ ((s.map escCharL).flatten).length := by
  induction s with
  | nil => simp
  | cons c cs ih =>
    have h1 : 1 ≤ (escCharL c).length := by
      rcases esc_shape c with ⟨he, _, _, _⟩ | ⟨t, ht, _⟩
      · simp [he]
      · simp [ht]
    simp only [List.map_cons, List.flatten_cons, List.length_append, List.length_cons]
    omega

theorem parseElems_ws (fuel : Nat) (X : List Char) :
    parseElems fuel (' ' :: X) = parseElems fuel X := by
  cases fuel with
  | zero => rfl
  | succ f => rfl

theorem two_le_encodeStrL_len (s : List Char) : 2 ≤ (encodeStrL s).length := by
  simp [encodeStrL]

theorem len_le_sepConcat (ls : List (List Char)) :
    ls.length ≤ (sepConcat (ls.map encodeStrL)).length + 1 := by
  induction ls with
  | nil => simp [sepConcat]
  | cons s ss ih =>
    cases ss with
    | nil =>
      have := two_le_encodeStrL_len s
      simp only [List.map_cons, List.map_nil, sepConcat, List.length_cons,
        List.length_nil]
      omega
    | cons s2 t =>
      have h1 := two_le_encodeStrL_len s
      simp only [List.map_cons, sepConcat, List.length_append, List.length_cons] at ih ⊢
      omega

theorem parseElems_encode (ls : List (List Char)) : ∀ (fuel : Nat), ls ≠ [] →
    ls.length ≤ fuel → ∀ (rest : List Char),
    parseElems fuel (sepConcat (ls.map encodeStrL) ++ ']' :: rest) = some (ls, rest) := by
  induction ls with
  | nil => intro fuel h; exact absurd rfl h
  | cons s ss ih =>
    intro fuel _ hf rest
    simp only [List.length_cons] at hf
    obtain ⟨f, rfl⟩ : ∃ f, fuel = f + 1 := ⟨fuel - 1, by omega⟩
    cases ss with
    | nil =>
      rw [show sepConcat ([s].map encodeStrL) ++ ']' :: rest =
        '"' :: ((s.map escCharL).flatten ++ '"' :: ']' :: rest) from by
          simp [sepConcat, encodeStrL]]
      rw [show parseElems (f + 1) ('"' :: ((s.map escCharL).flatten ++ '"' :: ']' :: rest)) =
        (parseStrL (((s.map escCharL).flatten ++ '"' :: ']' :: rest).length + 1)
            ((s.map escCharL).flatten ++ '"' :: ']' :: rest)).bind (fun q =>
          match skipWs q.2 with
          | [] => none
          | c2 :: rest3 =>
            if c2 = ',' then (parseElems f rest3).map (fun p => (q.1 :: p.1, p.2))
            else if c2 = ']' then some ([q.1], rest3)
            else none) from rfl]
      rw [parseStrL_encode s _ (by
        have := length_le_flatten_esc s
        simp only [List.length_append, List.length_cons]
        omega) (']' :: rest)]
      rfl
    | cons s2 t =>
      rw [show sepConcat ((s :: s2 :: t).map encodeStrL) ++ ']' :: rest =
        '"' :: ((s.map escCharL).flatten ++ '"' :: ',' :: ' ' ::
          (sepConcat ((s2 :: t).map encodeStrL) ++ ']' :: rest)) from by
          simp [sepConcat, encodeStrL]]
      rw [show parseElems (f + 1) ('"' :: ((s.map escCharL).flatten ++ '"' :: ',' :: ' ' ::
          (sepConcat ((s2 :: t).map encodeStrL) ++ ']' :: rest))) =
        (parseStrL (((s.map escCharL).flatten ++ '"' :: ',' :: ' ' ::
            (sepConcat ((s2 :: t).map encodeStrL) ++ ']' :: rest)).length + 1)
            ((s.map escCharL).flatten ++ '"' :: ',' :: ' ' ::
            (sepConcat ((s2 :: t).map encodeStrL) ++ ']' :: rest))).bind (fun q =>
          match skipWs q.2 with
          | [] => none
          | c2 :: rest3 =>
            if c2 = ',' then (parseElems f rest3).map (fun p => (q.1 :: p.1, p.2))
            else if c2 = ']' then some ([q.1], rest3)
            else none) from rfl]
      rw [parseStrL_encode s _ (by
        have := length_le_flatten_esc s
        simp only [List.length_append, List.length_cons]
        omega) (',' :: ' ' :: (sepConcat ((s2 :: t).map encodeStrL) ++ ']' :: rest))]
      rw [Option.some_bind]
      show (parseElems f (' ' :: (sepConcat ((s2 :: t).map encodeStrL) ++ ']' :: rest))).map
        (fun p => (s :: p.1, p.2)) = some (s :: s2 :: t, rest)
      rw [parseElems_ws, ih f (by simp) (by simp only [List.length_cons] at hf ⊢; omega) rest]
      rfl

theorem sepConcat_encode_head (s : List Char) (ss : List (List Char)) :
    ∃ t2, sepConcat ((s :: ss).map encodeStrL) = '"' :: t2 := by
  cases ss with
  | nil => exact ⟨(s.map escCharL).flatten ++ ['"'], rfl⟩
  | cons s2 t =>
    exact ⟨((s.map escCharL).flatten ++ ['"']) ++
      ',' :: ' ' :: sepConcat ((s2 :: t).map encodeStrL), rfl⟩

theorem loadsListL_dumpsListL (ls : List (List Char)) :
    loadsListL (dumpsListL ls) = some ls := by
  cases ls with
  | nil => rfl
  | cons s ss =>
    obtain ⟨t2, ht2⟩ := sepConcat_encode_head s ss
    rw [show dumpsListL (s :: ss) =
      '[' :: (sepConcat ((s :: ss).map encodeStrL) ++ [']']) from rfl]
    rw [ht2]
    rw [show loadsListL ('[' :: (('"' :: t2) ++ [']'])) =
      (if ('"' : Char) = ']' then (if skipWs (t2 ++ [']']) = [] then some [] else none)
       else
        (parseElems ('[' :: (('"' :: t2) ++ [']'])).length (('"' :: t2) ++ [']'])).bind
          (fun p => if skipWs p.2 = [] then some p.1 else none)) from rfl]
    rw [if_neg (by decide : ¬('"' : Char) = ']')]
    rw [show ('"' :: t2) ++ [']'] = sepConcat ((s :: ss).map encodeStrL) ++ ']' :: [] from by
      rw [← ht2]]
    rw [parseElems_encode (s :: ss) _ (by simp) (by
      have := len_le_sepConcat (s :: ss)
      simp only [List.length_cons, List.length_append] at this ⊢
      omega) []]
    rfl

theorem jsonLoads_jsonDumps (l : List String) :
    jsonLoadsList (jsonDumpsList l) = some l := by
  unfold jsonLoadsList jsonDumpsList
  rw [show (String.mk (dumpsListL (l.map String.data))).data =
    dumpsListL (l.map String.data) from rfl]
  rw [loadsListL_dumpsListL]
  rw [show ∀ o : List (List Char),
    Option.map (fun z => z.map String.mk) (some o) = some (o.map String.mk) from
      fun o => rfl]
  rw [List.map_map]
  rw [show String.mk ∘ String.data = id from funext (fun s => rfl), List.map_id]


/-! ### C1 — mood validation -/

/-- C1 counterexample: the store-level insert (`insert_entry`) performs
no mood validation: called directly with the out-of-set mood `angry` it
raises no error and persists the row, so the stored entries after the
call differ from those before. -/
theorem insert_entry_accepts_invalid_mood :
    ("angry" ∉ MOODS) ∧
    (insert_entry initialStore 18267 "t" "" [] "angry" 0 [] [] [] 0).2.rows.map
      (fun r => r.mood) = ["angry"] ∧
    initialStore.rows = [] :=
  ⟨by decide, by decide, rfl⟩

/-- C1 (amended): the mood validation lives in the command layer: for
every `add` invocation whose mood is outside {great, good, ok, rough},
`cmd_add` reports a validation error and exits before calling the
insert, so the store is returned unchanged (no row persisted). -/
theorem cmd_add_rejects_invalid_mood (s : Store) (today now : Nat) (a : AddArgs)
    (h : a.mood ∉ MOODS) :
    cmd_add s today now a = (s, AddOutcome.validationError) := by
  simp only [cmd_add, if_neg h]

/-- C1 witness. -/
theorem cmd_add_rejects_invalid_mood_witness :
    cmd_add initialStore 18267 0 ⟨"t", "", "", "angry", 0, "", "", ""⟩ =
      (initialStore, AddOutcome.validationError) :=
  cmd_add_rejects_invalid_mood initialStore 18267 0
    ⟨"t", "", "", "angry", 0, "", "", ""⟩ (by decide)

/-! ### C2 — index in lockstep with the table -/

/-- C2: in every reachable store state the FTS index holds exactly one
document per stored entry — the documents are precisely the rows' images
under `rowDoc` (title, body, serialized tag list), in order.  Inserts
append the row and its document in one unit of work, so no intermediate
state separating them is reachable. -/
theorem fts_index_invariant (s : Store) (h : Reachable s) :
    s.fts = s.rows.map rowDoc := by
  induction h with
  | init => rfl
  | insert s d title body tags mood fh ac bl tm now _ ih =>
    simp only [insert_entry, List.map_append, ← ih, List.map_cons, List.map_nil]

/-- C2 witness. -/
theorem fts_index_invariant_witness :
    demoStore1.fts = demoStore1.rows.map rowDoc :=
  fts_index_invariant demoStore1
    (Reachable.insert initialStore 18267 "standup" "notes" ["python"] "ok" 2
      ["shipped"] [] [] 0 Reachable.init)

/-! ### C4 — malformed full-text query -/

/-- C4: `cmd_search` installs no handler, so a query the index rejects
(here the bare reserved token `AND`) escapes as an uncaught
`sqlite3.OperationalError` — the outcome is a crash, not a reported
`MalformedQuery` error; the store is not modified (the command only
reads). -/
theorem cmd_search_malformed_uncaught :
    cmd_search demoStore1 "AND" =
      SearchOutcome.uncaught "fts5: syntax error in query: AND" := by decide

/-! ### C9 — export default start date -/

/-- C9: when no explicit start is given, the export range silently
defaults to 2020-01-01, so any entry dated before that day is excluded
from the export even though the caller requested no range. -/
theorem export_default_start (s : Store) (argEnd : Option Nat) (today : Nat)
    (r : Row) (hr : r ∈ s.rows) (hd : r.date < exportDefaultStart) :
    cmd_export_md none argEnd today s =
      cmd_export_md (some exportDefaultStart) argEnd today s ∧
    r ∉ cmd_export_md none argEnd today s := by
  refine ⟨rfl, fun hmem => ?_⟩
  unfold cmd_export_md at hmem
  rw [List.mem_insertionSort] at hmem
  rw [List.mem_filter] at hmem
  have h2 := hmem.2
  simp only [Bool.and_eq_true, decide_eq_true_eq] at h2
  have : exportDefaultStart ≤ r.date := by
    simpa [Option.getD] using h2.1
  omega

/-- C9 witness. -/
theorem export_default_start_witness :
    cmd_export_md none none 18500 oldStore =
      cmd_export_md (some exportDefaultStart) none 18500 oldStore ∧
    oldRow ∉ cmd_export_md none none 18500 oldStore :=
  export_default_start oldStore none 18500 oldRow (by decide) (by decide)

/-! ### C6 — insert / get round-trip -/

/-- C6: after a valid insert into a store whose rows respect the
autoincrement bound, fetching the returned id yields the freshly stored
row, and deserializing it reproduces every input field exactly — the
four list-valued fields come back as the same ordered sequences (the
serialize→deserialize round-trip `jsonLoads_jsonDumps` reorders and
deduplicates nothing). -/
theorem insert_then_get (s : Store) (h : ∀ r ∈ s.rows, r.id < s.seq)
    (d : Nat) (title body mood : String) (tags ac bl tm : List String)
    (fh : Rat) (now : Nat) :
    ∃ r, getById (insert_entry s d title body tags mood fh ac bl tm now).2
        (insert_entry s d title body tags mood fh ac bl tm now).1 = some r ∧
      row_to_entry r =
        some ⟨s.seq, d, title, body, tags, mood, fh, ac, bl, tm, now⟩ := by
  refine ⟨⟨s.seq, d, title, body, jsonDumpsList tags, mood, fh, jsonDumpsList ac,
    jsonDumpsList bl, jsonDumpsList tm, now⟩, ?_, ?_⟩
  · show List.find? (fun r : Row => r.id == s.seq)
        (s.rows ++ [⟨s.seq, d, title, body, jsonDumpsList tags, mood, fh,
          jsonDumpsList ac, jsonDumpsList bl, jsonDumpsList tm, now⟩]) = _
    rw [List.find?_append]
    have h1 : s.rows.find? (fun r => r.id == s.seq) = none :=
      List.find?_eq_none.mpr (fun r hr => by
        have := h r hr
        simp only [beq_iff_eq]
        omega)
    rw [h1, Option.none_or]
    simp [List.find?]
  · unfold row_to_entry
    rw [jsonLoads_jsonDumps, jsonLoads_jsonDumps, jsonLoads_jsonDumps,
      jsonLoads_jsonDumps]

/-- C6 witness (note the duplicated tag held in order). -/
theorem insert_then_get_witness :
    ∃ r, getById (insert_entry initialStore 18267 "t" "b" ["x", "x"] "ok" 2
        ["a"] [] ["z"] 7).2
        (insert_entry initialStore 18267 "t" "b" ["x", "x"] "ok" 2
        ["a"] [] ["z"] 7).1 = some r ∧
      row_to_entry r =
        some ⟨1, 18267, "t", "b", ["x", "x"], "ok", 2, ["a"], [], ["z"], 7⟩ :=
  insert_then_get initialStore (by decide) 18267 "t" "b" "ok" ["x", "x"]
    ["a"] [] ["z"] 2 7

/-! ### C7 — search result shape -/

/-- C7: for a query the index accepts, the search reports its results
normally: at most 20 of them, ordered by entry date descending, each a
stored row matched by the query through its index document; and when
nothing matches, the reported result is empty — a normal outcome, not
an error. -/
theorem cmd_search_spec (s : Store) (q : String) (hq : fts5QueryOk q = true) :
    cmd_search s q = SearchOutcome.reported (searchRows s q) ∧
    (searchRows s q).length ≤ 20 ∧
    List.Sorted dateGe (searchRows s q) ∧
    (∀ r ∈ searchRows s q, r ∈ s.rows ∧
      s.fts.any (fun d2 => d2.rowid == r.id && matchDoc q d2) = true) ∧
    (s.rows.filter (fun r => s.fts.any (fun d2 => d2.rowid == r.id && matchDoc q d2))
        = [] → searchRows s q = []) := by
  refine ⟨by simp [cmd_search, hq], List.length_take_le 20 _, ?_, ?_, ?_⟩
  · exact List.Pairwise.sublist (List.take_sublist 20 _)
      (List.sorted_insertionSort dateGe _)
  · intro r hr
    have h1 : r ∈ List.insertionSort dateGe (s.rows.filter (fun r =>
        s.fts.any (fun d2 => d2.rowid == r.id && matchDoc q d2))) :=
      (List.take_sublist 20 _).mem hr
    rw [List.mem_insertionSort, List.mem_filter] at h1
    exact h1
  · intro hf
    simp [searchRows, hf]

/-- C7 witness. -/
theorem cmd_search_spec_witness :
    cmd_search demoStore2 "standup" =
      SearchOutcome.reported (searchRows demoStore2 "standup") ∧
    (searchRows demoStore2 "standup").length ≤ 20 ∧
    List.Sorted dateGe (searchRows demoStore2 "standup") ∧
    (∀ r ∈ searchRows demoStore2 "standup", r ∈ demoStore2.rows ∧
      demoStore2.fts.any (fun d2 => d2.rowid == r.id && matchDoc "standup" d2)
        = true) ∧
    (demoStore2.rows.filter (fun r =>
        demoStore2.fts.any (fun d2 => d2.rowid == r.id && matchDoc "standup" d2))
        = [] → searchRows demoStore2 "standup" = []) :=
  cmd_search_spec demoStore2 "standup" (by decide)

/-! ### C8 — initialize() idempotence -/

/-- C8: running the `CREATE ... IF NOT EXISTS` script twice produces the
same database file as running it once; a pre-existing entries table is
preserved with its rows, and every query (search, get by id) answers
the same on both stores — no destructive migration. -/
theorem get_db_idempotent (f : DbFile) :
    get_db (get_db f) = get_db f ∧
    (∀ rows seq, f.entriesTab = some (rows, seq) →
      (get_db f).entriesTab = some (rows, seq)) ∧
    (∀ q, cmd_search (storeOf (get_db (get_db f))) q =
      cmd_search (storeOf (get_db f)) q) ∧
    (∀ i, getById (storeOf (get_db (get_db f))) i =
      getById (storeOf (get_db f)) i) := by
  have h1 : get_db (get_db f) = get_db f := by simp [get_db]
  exact ⟨h1, fun rows seq hrs => by simp [get_db, hrs],
    fun q => by rw [h1], fun i => by rw [h1]⟩

/-- C8 witness. -/
theorem get_db_idempotent_witness :
    get_db (get_db demoFile) = get_db demoFile ∧
    (get_db demoFile).entriesTab =
      some ([⟨1, 18267, "t", "b", "[]", "ok", 2, "[]", "[]", "[]", 0⟩], 2) :=
  ⟨(get_db_idempotent demoFile).1,
   (get_db_idempotent demoFile).2.1 _ 2 rfl⟩

/-! ### C3 — weekly summary -/

theorem mapM_option_of_isSome {α β : Type} (f : α → Option β) (dflt : β) :
    ∀ (l : List α), (∀ x ∈ l, (f x).isSome) →
      l.mapM f = some (l.map (fun x => (f x).getD dflt)) := by
  intro l
  induction l with
  | nil => intro _; rfl
  | cons x xs ih =>
    intro h
    rw [List.mapM_cons]
    obtain ⟨y, hy⟩ := Option.isSome_iff_exists.mp (h x (by simp))
    rw [ih (fun z hz => h z (by simp [hz]))]
    simp [hy]

/-- Unfolding equation for `cmd_weekly` (the source body after binding
`start` and the sorted window query). -/
theorem cmd_weekly_eq (today : Nat) (s : Store) :
    cmd_weekly today s =
      match (List.insertionSort dateLe (s.rows.filter (fun r =>
          decide (today - pyWeekday today ≤ r.date)))).mapM
          (fun r => jsonLoadsList r.accomplishments) with
      | none => none
      | some accLists =>
        some ⟨(List.insertionSort dateLe (s.rows.filter (fun r =>
            decide (today - pyWeekday today ≤ r.date)))).length,
          ((List.insertionSort dateLe (s.rows.filter (fun r =>
            decide (today - pyWeekday today ≤ r.date)))).map
            (fun r => r.focus_hours)).sum, accLists.flatten⟩ := rfl

/-- C3 (amended): the weekly summary considers exactly the entries with
`date ≥ start_of_week` where `start_of_week = today − today.weekday()`
(Monday = 0) — the query has no upper bound, so the window is
`[start_of_week, ∞)`, not `[start_of_week, today]`.  Over those entries
it sums `focus_hours` and concatenates the `accomplishments` lists in
ascending date order. -/
theorem cmd_weekly_spec (today : Nat) (s : Store)
    (h : ∀ r ∈ s.rows, (jsonLoadsList r.accomplishments).isSome) :
    ∃ w, cmd_weekly today s = some w ∧
      ∃ rs, rs.Perm (s.rows.filter (fun r =>
          decide (today - pyWeekday today ≤ r.date))) ∧
        List.Sorted dateLe rs ∧
        w.count = (s.rows.filter (fun r =>
          decide (today - pyWeekday today ≤ r.date))).length ∧
        w.totalHours = ((s.rows.filter (fun r =>
          decide (today - pyWeekday today ≤ r.date))).map
          (fun r => r.focus_hours)).sum ∧
        w.accomplishments =
          (rs.map (fun r => (jsonLoadsList r.accomplishments).getD [])).flatten := by
  have hperm : (List.insertionSort dateLe (s.rows.filter (fun r =>
      decide (today - pyWeekday today ≤ r.date)))).Perm
      (s.rows.filter (fun r => decide (today - pyWeekday today ≤ r.date))) :=
    List.perm_insertionSort dateLe _
  have hsub : ∀ r ∈ List.insertionSort dateLe (s.rows.filter (fun r =>
      decide (today - pyWeekday today ≤ r.date))),
      (jsonLoadsList r.accomplishments).isSome := by
    intro r hr
    rw [List.mem_insertionSort, List.mem_filter] at hr
    exact h r hr.1
  have hm := mapM_option_of_isSome (fun r : Row => jsonLoadsList r.accomplishments) [] _ hsub
  refine ⟨⟨(List.insertionSort dateLe (s.rows.filter (fun r : Row =>
        decide (today - pyWeekday today ≤ r.date)))).length,
      ((List.insertionSort dateLe (s.rows.filter (fun r : Row =>
        decide (today - pyWeekday today ≤ r.date)))).map
        (fun r => r.focus_hours)).sum,
      ((List.insertionSort dateLe (s.rows.filter (fun r : Row =>
        decide (today - pyWeekday today ≤ r.date)))).map
        (fun r => (jsonLoadsList r.accomplishments).getD [])).flatten⟩, ?_,
    List.insertionSort dateLe (s.rows.filter (fun r : Row =>
      decide (today - pyWeekday today ≤ r.date))), hperm,
    List.sorted_insertionSort dateLe _, ?_, ?_, rfl⟩
  · rw [cmd_weekly_eq, hm]
  · exact hperm.length_eq
  · exact (hperm.map (fun r => r.focus_hours)).sum_eq

/-- C3 witness: today = 18273 (a Sunday), so the week starts at 18267
(Monday); both demo entries (18267 and 18270) fall in the window. -/
theorem cmd_weekly_spec_witness :
    ∃ w, cmd_weekly 18273 demoStore2 = some w ∧
      ∃ rs, rs.Perm (demoStore2.rows.filter (fun r =>
          decide (18273 - pyWeekday 18273 ≤ r.date))) ∧
        List.Sorted dateLe rs ∧
        w.count = (demoStore2.rows.filter (fun r =>
          decide (18273 - pyWeekday 18273 ≤ r.date))).length ∧
        w.totalHours = ((demoStore2.rows.filter (fun r =>
          decide (18273 - pyWeekday 18273 ≤ r.date))).map
          (fun r => r.focus_hours)).sum ∧
        w.accomplishments =
          (rs.map (fun r => (jsonLoadsList r.accomplishments).getD [])).flatten :=
  cmd_weekly_spec 18273 demoStore2 (by decide)

/-- C3 counterexample: today = 18267 (a Monday, so the claimed window is
the single day [18267, 18267]); the store holds exactly one entry, dated
18268 (the next day).  The weekly summary still counts it — the query
`date>=start` has no upper bound — although the claimed inclusive window
[start_of_week, today] contains no stored entry at all. -/
theorem cmd_weekly_window_counterexample :
    (cmd_weekly 18267 futureStore).map (fun w => w.count) = some 1 ∧
    futureStore.rows.filter (fun r =>
      decide (18267 - pyWeekday 18267 ≤ r.date ∧ r.date ≤ 18267)) = [] ∧
    futureStore.rows.length = 1 :=
  ⟨by decide, by decide, by decide⟩

/-! ### C10 — mood trend partiality -/

theorem mem_foldl_dedup (l : List String) (a : String) :
    ∀ acc, (a ∈ l.foldl
      (fun acc m => if acc.contains m then acc else acc ++ [m]) acc ↔
      a ∈ acc ∨ a ∈ l) := by
  induction l with
  | nil => intro acc; simp
  | cons x xs ih =>
    intro acc
    simp only [List.foldl_cons]
    by_cases hx : acc.contains x
    · rw [if_pos hx, ih acc]
      have hxa : x ∈ acc := by simpa using hx
      constructor
      · rintro (h | h)
        · exact Or.inl h
        · exact Or.inr (List.mem_cons_of_mem x h)
      · rintro (h | h)
        · exact Or.inl h
        · rcases List.mem_cons.mp h with h | h
          · exact Or.inl (h ▸ hxa)
          · exact Or.inr h
    · rw [if_neg hx, ih (acc ++ [x])]
      simp only [List.mem_append, List.mem_singleton, List.mem_cons]
      tauto

theorem mem_distinctList (l : List String) (a : String) :
    a ∈ distinctList l ↔ a ∈ l := by
  unfold distinctList
  rw [mem_foldl_dedup]
  simp

theorem distinctList_eq_nil (l : List String) : distinctList l = [] ↔ l = [] := by
  constructor
  · intro h
    cases l with
    | nil => rfl
    | cons x xs =>
      have hx : x ∈ distinctList (x :: xs) :=
        (mem_distinctList _ _).mpr (by simp)
      rw [h] at hx
      exact absurd hx (List.not_mem_nil x)
  · intro h
    rw [h]
    rfl

theorem mapM_option_eq_none_iff {α β : Type} (f : α → Option β) (l : List α) :
    l.mapM f = none ↔ ∃ x ∈ l, f x = none := by
  induction l with
  | nil =>
    rw [show List.mapM f ([] : List α) = some [] from rfl]
    simp
  | cons a as ih =>
    rw [show (a :: as).mapM f =
      (f a).bind (fun y => (as.mapM f).bind (fun ys => some (y :: ys))) from by
        rw [List.mapM_cons]; rfl]
    cases hfa : f a with
    | none =>
      simp only [hfa, Option.none_bind]
      constructor
      · intro _
        exact ⟨a, by simp, hfa⟩
      · intro _
        trivial
    | some b =>
      simp only [hfa, Option.some_bind]
      cases has : as.mapM f with
      | none =>
        simp only [has, Option.none_bind]
        constructor
        · intro _
          obtain ⟨x, hx, hfx⟩ := ih.mp has
          exact ⟨x, List.mem_cons_of_mem a hx, hfx⟩
        · intro _
          trivial
      | some ys =>
        simp only [has, Option.some_bind]
        constructor
        · intro hc
          simp at hc
        · rintro ⟨x, hx, hfx⟩
          rcases List.mem_cons.mp hx with h | h
          · rw [h, hfa] at hfx
            cases hfx
          · have h2 := ih.mpr ⟨x, h, hfx⟩
            rw [has] at h2
            cases h2

theorem moodsIndex_isSome (m : String) : (moodsIndex m).isSome ↔ m ∈ MOODS := by
  unfold moodsIndex
  rw [List.findIdx?_isSome]
  simp [List.any_eq_true, beq_iff_eq]

/-- C10: the mood-trend aggregation is partial in the stored moods: it
terminates normally (an `ok` outcome) exactly when every entry in the
trailing window `date ≥ today − days` (with `days = args.days or 30`)
has a mood inside the `MOODS` enumeration; one out-of-set mood among the
grouped rows makes `sorted(..., key=MOODS.index)` raise an uncaught
`ValueError` instead of reporting or skipping the row. -/
theorem mood_trend_total_iff (today argDays : Nat) (s : Store) :
    (∃ o, cmd_mood_trend today argDays s = Except.ok o) ↔
    (∀ r ∈ s.rows,
      today - (if argDays = 0 then 30 else argDays) ≤ r.date →
        r.mood ∈ MOODS) := by
  unfold cmd_mood_trend
  have hmem : ∀ r : Row, r ∈ s.rows.filter (fun r =>
      decide (today - (if argDays = 0 then 30 else argDays) ≤ r.date)) ↔
      (r ∈ s.rows ∧ today - (if argDays = 0 then 30 else argDays) ≤ r.date) := by
    intro r
    rw [List.mem_filter]
    simp
  by_cases hg : (moodCounts (s.rows.filter (fun r =>
      decide (today - (if argDays = 0 then 30 else argDays) ≤ r.date)))).isEmpty
  · rw [if_pos hg]
    have hflt : s.rows.filter (fun r =>
        decide (today - (if argDays = 0 then 30 else argDays) ≤ r.date)) = [] := by
      have h1 := List.isEmpty_iff.mp hg
      unfold moodCounts at h1
      have h2 := List.map_eq_nil_iff.mp h1
      have h3 := (distinctList_eq_nil _).mp h2
      exact List.map_eq_nil_iff.mp h3
    constructor
    · intro _ r hr hd
      have : r ∈ s.rows.filter (fun r =>
          decide (today - (if argDays = 0 then 30 else argDays) ≤ r.date)) :=
        (hmem r).mpr ⟨hr, hd⟩
      rw [hflt] at this
      exact absurd this (List.not_mem_nil r)
    · intro _
      exact ⟨TrendOutcome.noData, rfl⟩
  · rw [if_neg hg]
    have key : (∀ p ∈ moodCounts (s.rows.filter (fun r =>
        decide (today - (if argDays = 0 then 30 else argDays) ≤ r.date))),
        ((moodsIndex p.1).map (fun i => (i, p))).isSome) ↔
        (∀ r ∈ s.rows,
          today - (if argDays = 0 then 30 else argDays) ≤ r.date →
            r.mood ∈ MOODS) := by
      constructor
      · intro hp r hr hd
        have hrf := (hmem r).mpr ⟨hr, hd⟩
        have hmood : r.mood ∈ distinctList ((s.rows.filter (fun r =>
            decide (today - (if argDays = 0 then 30 else argDays) ≤ r.date))).map
            (fun r => r.mood)) :=
          (mem_distinctList _ _).mpr (List.mem_map_of_mem _ hrf)
        have hpmem : (r.mood, ((s.rows.filter (fun r =>
            decide (today - (if argDays = 0 then 30 else argDays) ≤ r.date))).filter
            (fun r2 => r2.mood == r.mood)).length) ∈
            moodCounts (s.rows.filter (fun r =>
              decide (today - (if argDays = 0 then 30 else argDays) ≤ r.date))) := by
          unfold moodCounts
          exact List.mem_map_of_mem _ hmood
        have := hp _ hpmem
        rw [Option.isSome_map'] at this
        exact (moodsIndex_isSome r.mood).mp this
      · intro hr p hp
        unfold moodCounts at hp
        obtain ⟨m, hm, hpm⟩ := List.mem_map.mp hp
        have hm2 : m ∈ (s.rows.filter (fun r =>
            decide (today - (if argDays = 0 then 30 else argDays) ≤ r.date))).map
            (fun r => r.mood) := (mem_distinctList _ _).mp hm
        obtain ⟨r2, hr2, hr2m⟩ := List.mem_map.mp hm2
        have hr2' := (hmem r2).mp hr2
        have hmoods : m ∈ MOODS := hr2m ▸ hr r2 hr2'.1 hr2'.2
        rw [Option.isSome_map']
        rw [← hpm]
        exact (moodsIndex_isSome m).mpr hmoods
    cases hmm : (moodCounts (s.rows.filter (fun r =>
        decide (today - (if argDays = 0 then 30 else argDays) ≤ r.date)))).mapM
        (fun p => (moodsIndex p.1).map (fun i => (i, p))) with
    | none =>
      obtain ⟨p, hp, hpn⟩ := (mapM_option_eq_none_iff _ _).mp hmm
      constructor
      · intro ⟨o, ho⟩
        cases ho
      · intro hr
        have := key.mpr hr p hp
        rw [hpn] at this
        cases this
    | some keyed =>
      constructor
      · intro _
        exact key.mp (fun p hp => by
          have : (fun p => (moodsIndex p.1).map (fun i => (i, p))) p ≠ none := by
            intro hn
            exact absurd ((mapM_option_eq_none_iff _ _).mpr ⟨p, hp, hn⟩)
              (by rw [hmm]; simp)
          exact Option.ne_none_iff_isSome.mp this)
      · intro _
        exact ⟨_, rfl⟩

/-- C10 witness: all moods in the window are in the enumeration, so the
command terminates normally. -/
theorem mood_trend_total_iff_witness :
    ∃ o, cmd_mood_trend 18300 0 demoStore2 = Except.ok o :=
  (mood_trend_total_iff 18300 0 demoStore2).mpr (by decide)

/-! ### C5 — streak computation -/


theorem streakAux_pos (prev : Nat) (rest : List Nat) : 1 ≤ streakAux prev rest := by
  cases rest with
  | nil => exact Nat.le_refl 1
  | cons d t =>
    rw [streakAux]
    split
    · omega
    · omega

theorem streakAux_le (prev : Nat) (rest : List Nat) :
    streakAux prev rest ≤ rest.length + 1 := by
  induction rest generalizing prev with
  | nil => simp [streakAux]
  | cons d t ih =>
    rw [streakAux]
    split
    · have := ih d
      simp only [List.length_cons]
      omega
    · simp only [List.length_cons]
      omega

theorem streakAux_consec (prev : Nat) (rest : List Nat) :
    ∀ i < streakAux prev rest - 1,
      (prev :: rest).getD i 0 = (prev :: rest).getD (i + 1) 0 + 1 := by
  induction rest generalizing prev with
  | nil =>
    intro i hi
    simp [streakAux] at hi
  | cons d t ih =>
    intro i hi
    rw [streakAux] at hi
    by_cases h : prev - d = 1
    · rw [if_pos h] at hi
      cases i with
      | zero =>
        simp only [List.getD_cons_zero, List.getD_cons_succ]
        have hge : d < prev := by omega
        omega
      | succ j =>
        have hj : j < streakAux d t - 1 := by omega
        have := ih d j hj
        simpa [List.getD_cons_succ] using this
    · rw [if_neg h] at hi
      exact absurd hi (by omega)

theorem streakAux_break (prev : Nat) (rest : List Nat)
    (hlen : streakAux prev rest < (prev :: rest).length) :
    ¬ (∀ i < streakAux prev rest,
      (prev :: rest).getD i 0 = (prev :: rest).getD (i + 1) 0 + 1) := by
  induction rest generalizing prev with
  | nil =>
    simp [streakAux] at hlen
  | cons d t ih =>
    intro hcon
    by_cases h : prev - d = 1
    · have hlen2 : streakAux d t < (d :: t).length := by
        rw [streakAux, if_pos h] at hlen
        simp only [List.length_cons] at hlen ⊢
        omega
      refine ih d hlen2 (fun j hj => ?_)
      have := hcon (j + 1) (by rw [streakAux, if_pos h]; omega)
      simpa [List.getD_cons_succ] using this
    · have h0 := hcon 0 (by rw [streakAux, if_neg h]; omega)
      simp only [List.getD_cons_zero, List.getD_cons_succ] at h0
      exact h (by omega)

/-- C5: on a nonempty list of distinct dates sorted descending, the
computed streak equals the length of the maximal prefix of consecutive
calendar days starting from the most recent date (the spec-side
`specStreakLen`). -/
theorem streak_correct (l : List Nat) (hne : l ≠ [])
    (hdesc : List.Chain' (fun a b => b < a) l) :
    streakOf l = specStreakLen l := by
  obtain ⟨d, rest, rfl⟩ : ∃ d rest, l = d :: rest := by
    cases l with
    | nil => exact absurd rfl hne
    | cons d rest => exact ⟨d, rest, rfl⟩
  unfold specStreakLen
  rw [show streakOf (d :: rest) = streakAux d rest from rfl]
  symm
  rw [Nat.findGreatest_eq_iff]
  have hle := streakAux_le d rest
  refine ⟨by simp only [List.length_cons]; omega, fun _ => ⟨?_, ?_⟩, ?_⟩
  · simp only [List.length_cons]
    omega
  · intro i hi
    exact streakAux_consec d rest i hi
  · intro n hlt hle2 hP
    obtain ⟨hn1, hn2⟩ := hP
    have hlen : streakAux d rest < (d :: rest).length := by
      have := hn1
      omega
    refine streakAux_break d rest hlen (fun i hi => ?_)
    exact hn2 i (by omega)

/-- C5 witness: consecutive triple gives 3; a gap gives 1; a single
known date gives 1 (it need not be today). -/
theorem streak_correct_witness :
    streakOf [100, 99, 98] = specStreakLen [100, 99, 98] ∧
    streakOf [100, 99, 98] = 3 ∧ streakOf [100, 98] = 1 ∧ streakOf [55] = 1 :=
  ⟨streak_correct [100, 99, 98] (by decide)
    (by simp [List.chain'_cons]),
   by decide, by decide, by decide⟩
